import Mathlib

/-!
Verification of the concurrent fan-out job runner (Golang-Concurrency).

The repository has two entry points:

* `src/unnamed/part_001` — the per-job coordinator: for each tax rate it
  creates an unbuffered done channel and an unbuffered error channel,
  launches `priceJob.Process(doneChans[idx], errorChans[idx])` as a
  goroutine, and then, for `idx` in submission order, performs a `select`
  over `(errorChans[idx], doneChans[idx])`, printing an error line when a
  non-nil error arrives and a Done line when the done signal arrives.
* `src/main.go` — a fan-in example: four greeting goroutines share one
  unbuffered channel `isDone`; `slowGreet` sends and then closes the
  shared channel, and `main` drains the channel with `for range isDone`.

The files below embed these programs shallowly: channel communication is
modelled by a labelled transition system whose rendezvous events pair a
blocked sender with the receiver, and the job body (package `prices` and
package `filemanager`, which are not part of the repository snapshot) is
modelled from the spec.
-/

/-- Error taxonomy of a price job (read failure, parse/transform failure,
write failure), each carrying its message text. -/
inductive JobError where
  | readError (msg : String)
  | parseError (msg : String)
  | writeError (msg : String)
deriving DecidableEq, Repr

/-- The message text carried by a job error (the Go error's rendering). -/
def errText : JobError → String
  | .readError m => m
  | .parseError m => m
  | .writeError m => m

/-- A value sent by a job on one of its two outcome channels: `done`
travels on the done channel (`doneChans[idx]`), `err e` on the error
channel (`errorChans[idx]`).  `e` models a Go `error`, which is nilable,
hence the `Option`. -/
inductive Send where
  | done
  | err (e : Option JobError)
deriving DecidableEq, Repr

/-- Console lines printed by the coordinator for one received outcome,
following the `select` statement of `main` (src/unnamed/part_001, lines
30-39): an error is printed only when it is non-nil (`if err != nil`);
the done signal prints one Done line.  `fmt.Println` with two operands
inserts a space between them, hence the `++ " " ++`. -/
def reportLine : Send → List String
  | .done => ["Done ✅"]
  | .err none => []
  | .err (some e) => ["🔴 ERROR: " ++ " " ++ errText e]

/-- Phase of one job goroutine: still computing (`running`), blocked on
the send of its single outcome (`ready`), or finished because its send
has rendezvoused with the coordinator's receive (`sent`). -/
inductive JobPhase where
  | running
  | ready
  | sent
deriving DecidableEq, Repr

/-- Global state of the fan-out program of src/unnamed/part_001: the
phase of each job goroutine and the coordinator's loop index `pos` (the
next index whose channels it will select on). -/
structure Config where
  phases : List JobPhase
  pos : Nat
deriving DecidableEq, Repr

/-- Initial state: `n` launched jobs, all running, coordinator at index 0. -/
def init (n : Nat) : Config :=
  ⟨List.replicate n .running, 0⟩

/-- Events of the fan-out program.  `finish i` is internal to job `i`
(its computation reaches the send); `observe i s` is the rendezvous of
job `i`'s blocked send with the coordinator's `select` at index `i`. -/
inductive Label where
  | finish (i : Nat)
  | observe (i : Nat) (s : Send)
deriving DecidableEq, Repr

/-- One step of the fan-out program.  The parameter `outcome` gives the
single value job `i` sends (on its done or its error channel).  Jobs
finish in an arbitrary order, but because both channels of index `i` are
unbuffered, the send of job `i` can complete only by rendezvous with the
coordinator's `select` at loop index `i`. -/
inductive Step (outcome : Nat → Send) : Config → Label → Config → Prop where
  | finish (c : Config) (i : Nat) (h : c.phases[i]? = some .running) :
      Step outcome c (.finish i) ⟨c.phases.set i .ready, c.pos⟩
  | observe (c : Config) (i : Nat) (h : c.phases[i]? = some .ready)
      (hp : c.pos = i) :
      Step outcome c (.observe i (outcome i)) ⟨c.phases.set i .sent, c.pos + 1⟩

/-- Executions: reflexive-transitive closure of `Step`, recording the
trace of labels. -/
inductive Exec (outcome : Nat → Send) : Config → List Label → Config → Prop where
  | done (c : Config) : Exec outcome c [] c
  | step {c c' c'' : Config} {a : Label} {l : List Label} :
      Step outcome c a c' → Exec outcome c' l c'' → Exec outcome c (a :: l) c''

/-- The outcomes the coordinator observes along a trace, in observation
order, each tagged with its index. -/
def observations : List Label → List (Nat × Send)
  | [] => []
  | .observe i s :: rest => (i, s) :: observations rest
  | .finish _ :: rest => observations rest

/-- The console output produced along a trace (the coordinator prints as
it collects; jobs' own prints are not modelled here). -/
def console : List Label → List String
  | [] => []
  | .observe _ s :: rest => reportLine s ++ console rest
  | .finish _ :: rest => console rest

/-- Invariant of reachable states of the fan-out program with `n` jobs:
the phase list has length `n`, the coordinator never runs past `n`, and a
job's send has completed exactly when the coordinator has already passed
its index. -/
def Good (n : Nat) (c : Config) : Prop :=
  c.phases.length = n ∧ c.pos ≤ n ∧
    ∀ i, i < n → (c.phases[i]? = some .sent ↔ i < c.pos)

theorem good_init (n : Nat) : Good n (init n) := by
  refine ⟨List.length_replicate .., Nat.zero_le n, fun i hi => ?_⟩
  simp [init, List.getElem?_replicate, hi]

theorem step_good {n : Nat} {outcome : Nat → Send} {c c' : Config} {a : Label}
    (hs : Step outcome c a c') (hg : Good n c) : Good n c' := by
  obtain ⟨hlen, hpos, hinv⟩ := hg
  cases hs with
  | finish i h =>
      have hi : i < n := by
        obtain ⟨hb, -⟩ := List.getElem?_eq_some_iff.mp h
        omega
      refine ⟨by simp [hlen], hpos, fun j hj => ?_⟩
      show (c.phases.set i JobPhase.ready)[j]? = some JobPhase.sent ↔ j < c.pos
      by_cases hij : i = j
      · subst hij
        rw [List.getElem?_set_self (by omega)]
        constructor
        · intro hcon
          simp at hcon
        · intro hlt
          have hsent := (hinv i hi).mpr hlt
          rw [h] at hsent
          simp at hsent
      · rw [List.getElem?_set_ne hij]
        exact hinv j hj
  | observe i h hp =>
      have hi : i < n := by
        obtain ⟨hb, -⟩ := List.getElem?_eq_some_iff.mp h
        omega
      refine ⟨by simp [hlen], by show c.pos + 1 ≤ n; omega, fun j hj => ?_⟩
      show (c.phases.set i JobPhase.sent)[j]? = some JobPhase.sent ↔ j < c.pos + 1
      by_cases hij : i = j
      · subst hij
        rw [List.getElem?_set_self (by omega)]
        simp
        omega
      · rw [List.getElem?_set_ne hij, hinv j hj]
        omega

/-- Backbone lemma: along any execution that starts in a good state, the
state stays good, the coordinator index is monotone, and the observed
outcomes are exactly the indices from the start position to the end
position, in increasing index order, each paired with its job's outcome. -/
theorem exec_spec {n : Nat} {outcome : Nat → Send} {c c' : Config} {tr : List Label}
    (hexec : Exec outcome c tr c') :
    Good n c → Good n c' ∧ c.pos ≤ c'.pos ∧
      observations tr =
        (List.range' c.pos (c'.pos - c.pos)).map (fun i => (i, outcome i)) := by
  induction hexec with
  | done d =>
      exact fun hg => ⟨hg, Nat.le_refl _, by simp [observations]⟩
  | @step c cmid cfin a l hs hrest ih =>
      intro hg
      cases hs with
      | finish i h =>
          obtain ⟨hgf, hle, hobs⟩ := ih (step_good (@Step.finish outcome c i h) hg)
          dsimp only at hle hobs
          exact ⟨hgf, hle, by simpa [observations] using hobs⟩
      | observe i h hp =>
          obtain ⟨hgf, hle, hobs⟩ := ih (step_good (@Step.observe outcome c i h hp) hg)
          dsimp only at hle hobs
          subst hp
          have hle2 : c.pos + 1 ≤ cfin.pos := hle
          refine ⟨hgf, by omega, ?_⟩
          have hk : cfin.pos - c.pos = (cfin.pos - (c.pos + 1)) + 1 := by omega
          calc observations (Label.observe c.pos (outcome c.pos) :: l)
              = (c.pos, outcome c.pos) :: observations l := rfl
            _ = (c.pos, outcome c.pos) ::
                  (List.range' (c.pos + 1) (cfin.pos - (c.pos + 1))).map
                    (fun j => (j, outcome j)) := by rw [hobs]
            _ = (List.range' c.pos (cfin.pos - c.pos)).map (fun j => (j, outcome j)) := by
                  rw [hk, List.range'_succ]
                  rfl

/-- The console output is the per-outcome report lines, concatenated in
observation order. -/
theorem console_eq (tr : List Label) :
    console tr = ((observations tr).map (fun p => reportLine p.2)).flatten := by
  induction tr with
  | nil => rfl
  | cons a rest ih =>
      cases a with
      | finish i => simpa [console, observations] using ih
      | observe i s => simp [console, observations, ih]

theorem flatten_map_singleton {α β : Type} (l : List α) (g : α → β) :
    (l.map (fun x => [g x])).flatten = l.map g := by
  induction l with
  | nil => rfl
  | cons a rest ih => simp [ih]

/-- Modelled from the spec: the Transform contract of package `prices`
(not under src/; only its caller src/unnamed/part_001 is).  A raw record
is an already-read input line; `none` stands for a malformed row whose
price field is not numeric, `some r` for a line parsed to the price `r`.
Parsing fails with a `parseError` on the first malformed row. -/
def parseRecords : List (Option Rat) → Except JobError (List Rat)
  | [] => .ok []
  | none :: _ => .error (.parseError "malformed record")
  | some r :: rest => (parseRecords rest).map (fun l => r :: l)

/-- Modelled from the spec: `transform(records, parameter)` — pure and
deterministic, multiplies every price by `(1 + parameter)`, and fails
with a `ParseError` when an input line cannot be interpreted as a valid
record. -/
def transform (records : List (Option Rat)) (p : Rat) : Except JobError (List Rat) :=
  (parseRecords records).map (List.map (fun r => r * (1 + p)))

/-- Modelled from the spec: the sequence of sends performed by one run of
`Job.process(doneSignal, errorSignal)` (package `prices`, not under
src/).  The run is determined by the result of the input collaborator
(`rr`), the result of the output collaborator (`wr`), and the job's
parameter `p`: a read failure is sent on the error channel and the run
returns; likewise a transform or write failure; on full success one done
signal is sent. -/
def processSends (rr : Except JobError (List (Option Rat)))
    (wr : Except JobError Unit) (p : Rat) : List Send :=
  match rr with
  | .error e => [.err (some e)]
  | .ok records =>
    match transform records p with
    | .error e => [.err (some e)]
    | .ok _ =>
      match wr with
      | .error e => [.err (some e)]
      | .ok _ => [.done]

/-- Modelled from the spec: the single outcome value of one `process`
run (same decision tree as `processSends`). -/
def processSend (rr : Except JobError (List (Option Rat)))
    (wr : Except JobError Unit) (p : Rat) : Send :=
  match rr with
  | .error e => .err (some e)
  | .ok records =>
    match transform records p with
    | .error e => .err (some e)
    | .ok _ =>
      match wr with
      | .error e => .err (some e)
      | .ok _ => .done

/-- Modelled from the spec: the record set committed to the job's output
artifact — written only when read, transform and write all succeed. -/
def processWritten (rr : Except JobError (List (Option Rat)))
    (wr : Except JobError Unit) (p : Rat) : Option (List Rat) :=
  match rr with
  | .error _ => none
  | .ok records =>
    match transform records p with
    | .error _ => none
    | .ok out =>
      match wr with
      | .error _ => none
      | .ok _ => some out

theorem processSends_eq (rr : Except JobError (List (Option Rat)))
    (wr : Except JobError Unit) (p : Rat) :
    processSends rr wr p = [processSend rr wr p] := by
  cases rr with
  | error e => rfl
  | ok records =>
      simp only [processSends, processSend]
      cases transform records p with
      | error e => rfl
      | ok out =>
          cases wr with
          | error e => rfl
          | ok u => rfl

/-- Parameter list of the coordinator (src/unnamed/part_001, line 11):
`taxRates := []float64{0, 0.07, 0.1, 0.15}`.  The Go float64 literals
denote these exact decimal values, modelled as rationals. -/
def taxRates : List Rat := [0, 7/100, 1/10, 15/100]

/-- Input locator of job `idx` (src/unnamed/part_001, line 18): every
iteration passes the same literal `"prices.txt"` to `filemanager.New`. -/
def jobInputPath (_idx : Nat) : String := "prices.txt"

/-- Output locator derived from the rate (src/unnamed/part_001, line 18):
`fmt.Sprintf("result_%.0f.json", taxRate*100)`; `%.0f` rounds to the
nearest integer, as `round` does on the exact rational values. -/
def jobOutputPath (rate : Rat) : String :=
  "result_" ++ toString (round (rate * 100)) ++ ".json"

/-- Identity of one job's pair of outcome channels.  Channel values are
identified by the allocation site: iteration `idx` allocates one done
channel and one error channel (src/unnamed/part_001, lines 16-17), so
distinct indices hold distinct channels. -/
structure ChanPair where
  doneId : Nat
  errId : Nat
deriving DecidableEq, Repr

/-- Channel pair allocated for job `idx`: done channels get even ids,
error channels odd ids, so all allocated channels are pairwise distinct. -/
def chanPair (idx : Nat) : ChanPair := ⟨2 * idx, 2 * idx + 1⟩

/-- Channel descriptor: only the capacity is relevant here.  `make(chan
bool)` and `make(chan error)` (src/unnamed/part_001, lines 16-17) are
called without a capacity argument, so the capacity is 0 (unbuffered). -/
structure GoChan where
  capacity : Nat
deriving DecidableEq, Repr

/-- Done channel of index `idx`: `doneChans[idx] = make(chan bool)`. -/
def makeDoneChan (_idx : Nat) : GoChan := ⟨0⟩

/-- Error channel of index `idx`: `errorChans[idx] = make(chan error)`. -/
def makeErrorChan (_idx : Nat) : GoChan := ⟨0⟩

/-- One constructed price job (src/unnamed/part_001, lines 18-20):
`filemanager.New("prices.txt", fmt.Sprintf(...))` bundled with the rate
by `prices.NewTaxIncludedPriceJob(fm, taxRate)`. -/
structure PriceJob where
  inPath : String
  outPath : String
  rate : Rat
deriving DecidableEq, Repr

/-- Job constructed at loop index `idx` of the coordinator. -/
def jobAt (idx : Nat) : PriceJob :=
  ⟨jobInputPath idx, jobOutputPath (taxRates.getD idx 0), taxRates.getD idx 0⟩

/-- Jobs constructed by the coordinator, in submission order. -/
def jobs : List PriceJob := (List.range taxRates.length).map jobAt

/-- State of the fan-in program of src/main.go: four producer goroutines
(`greet` three times, `slowGreet` at index 3) share the single unbuffered
channel `isDone`; `fsent i` records whether producer `i`'s send has
completed, `fclosed` whether the channel has been closed (done by
`slowGreet` right after its own send), `fcrashed` whether a send on the
closed channel — a fatal runtime error — has occurred. -/
structure FanState where
  fsent : List Bool
  fclosed : Bool
  fcrashed : Bool
deriving DecidableEq, Repr

/-- Index of `slowGreet` among the four launched producers. -/
def slowIdx : Nat := 3

/-- Initial fan-in state: four producers launched, none has sent, the
shared channel is open. -/
def fanInit : FanState := ⟨[false, false, false, false], false, false⟩

/-- Events of the fan-in program: `recv i` is the rendezvous of producer
`i`'s send with a receive of `main`'s `for range isDone` loop; `closeCh`
is `close(doneChan)` executed by `slowGreet` after its send; `sendClosed
i` is producer `i` attempting its send after the channel was closed,
which panics. -/
inductive FanLabel where
  | recv (i : Nat)
  | closeCh
  | sendClosed (i : Nat)
deriving DecidableEq, Repr

/-- One step of the fan-in program.  The 2-second sleep in `slowGreet`
biases but does not constrain the schedule: producers may reach their
sends in any order. -/
inductive FanStep : FanState → FanLabel → FanState → Prop where
  | recv (s : FanState) (i : Nat) (h : s.fsent[i]? = some false)
      (hc : s.fclosed = false) (hx : s.fcrashed = false) :
      FanStep s (.recv i) ⟨s.fsent.set i true, false, false⟩
  | closeCh (s : FanState) (h : s.fsent[slowIdx]? = some true)
      (hc : s.fclosed = false) (hx : s.fcrashed = false) :
      FanStep s .closeCh ⟨s.fsent, true, false⟩
  | sendClosed (s : FanState) (i : Nat) (h : s.fsent[i]? = some false)
      (hc : s.fclosed = true) (hx : s.fcrashed = false) :
      FanStep s (.sendClosed i) ⟨s.fsent, true, true⟩

/-- Executions of the fan-in program. -/
inductive FanExec : FanState → List FanLabel → FanState → Prop where
  | done (s : FanState) : FanExec s [] s
  | step {s s' s'' : FanState} {a : FanLabel} {l : List FanLabel} :
      FanStep s a s' → FanExec s' l s'' → FanExec s (a :: l) s''

/-- C1: for every N and regardless of the order in which jobs actually
finish, the coordinator collects and reports outcomes strictly in
submission (index) order: along any execution from the initial state,
the observed outcomes are exactly indices 0, 1, ..., pos-1 in increasing
order, each paired with that job's outcome — index i+1 is never observed
before index i, even on traces where job i+1 finished first. -/
theorem c1_collection_in_index_order (n : Nat) (outcome : Nat → Send)
    (tr : List Label) (c : Config) (hexec : Exec outcome (init n) tr c) :
    observations tr = (List.range c.pos).map (fun i => (i, outcome i)) := by
  obtain ⟨-, -, hobs⟩ := exec_spec hexec (good_init n)
  simpa [init, List.range_eq_range'] using hobs

theorem wexecA : Exec (fun _ => Send.done) (init 2)
    [Label.finish 1, Label.finish 0, Label.observe 0 Send.done,
      Label.observe 1 Send.done]
    ⟨[JobPhase.sent, JobPhase.sent], 2⟩ := by
  refine Exec.step (Step.finish _ 1 rfl) ?_
  refine Exec.step (Step.finish _ 0 rfl) ?_
  refine Exec.step (Step.observe _ 0 rfl rfl) ?_
  refine Exec.step (Step.observe _ 1 rfl rfl) ?_
  exact Exec.done _

/-- Witness for C1: a concrete 2-job run in which job 1 finishes first,
yet index 0's outcome is observed before index 1's. -/
theorem c1_collection_in_index_order_witness :
    observations [Label.finish 1, Label.finish 0, Label.observe 0 Send.done,
        Label.observe 1 Send.done] = [(0, Send.done), (1, Send.done)] := by
  have h := c1_collection_in_index_order 2 (fun _ => Send.done) _ _ wexecA
  simpa using h

theorem processSend_shape (rr : Except JobError (List (Option Rat)))
    (wr : Except JobError Unit) (p : Rat) :
    processSend rr wr p = Send.done ∨ ∃ e, processSend rr wr p = Send.err (some e) := by
  cases rr with
  | error e => exact Or.inr ⟨e, rfl⟩
  | ok records =>
      simp only [processSend]
      cases transform records p with
      | error e => exact Or.inr ⟨e, rfl⟩
      | ok out =>
          cases wr with
          | error e => exact Or.inr ⟨e, rfl⟩
          | ok u => exact Or.inl rfl

/-- C3: for all N ≥ 0 parameters, when each index's outcome is the one
produced by a `process` run, a completed collection loop observes exactly
N outcomes, exactly one per index in index order, and each observed
outcome is either a success or a concrete (non-nil) error — no error is
silently dropped. -/
theorem c3_coordinator_observes_all (n : Nat) (outcome : Nat → Send)
    (tr : List Label) (c : Config)
    (hjob : ∀ i, i < n → ∃ rr wr p, outcome i = processSend rr wr p)
    (hexec : Exec outcome (init n) tr c) (hterm : c.pos = n) :
    observations tr = (List.range n).map (fun i => (i, outcome i)) ∧
    (observations tr).length = n ∧
    ∀ i, i < n → outcome i = Send.done ∨ ∃ e, outcome i = Send.err (some e) := by
  obtain ⟨-, -, hobs⟩ := exec_spec hexec (good_init n)
  have hobs2 : observations tr = (List.range n).map (fun i => (i, outcome i)) := by
    rw [← hterm]
    simpa [init, List.range_eq_range'] using hobs
  refine ⟨hobs2, by simp [hobs2], fun i hi => ?_⟩
  obtain ⟨rr, wr, p, hout⟩ := hjob i hi
  rw [hout]
  exact processSend_shape rr wr p

theorem wexecB : Exec (fun _ => Send.done) (init 1)
    [Label.finish 0, Label.observe 0 Send.done] ⟨[JobPhase.sent], 1⟩ := by
  refine Exec.step (Step.finish _ 0 rfl) ?_
  refine Exec.step (Step.observe _ 0 rfl rfl) ?_
  exact Exec.done _

/-- Witness for C3 at N = 1 with a successful job. -/
theorem c3_coordinator_observes_all_witness :
    observations [Label.finish 0, Label.observe 0 Send.done] = [(0, Send.done)] ∧
    (observations [Label.finish 0, Label.observe 0 Send.done]).length = 1 := by
  have h := c3_coordinator_observes_all 1 (fun _ => Send.done) _ _
    (fun i _ => ⟨Except.ok [], Except.ok (), 0, rfl⟩) wexecB rfl
  exact ⟨by simpa using h.1, h.2.1⟩

/-- C6: both outcome channels the coordinator constructs for each index
are unbuffered (capacity 0, rendezvous semantics), and consequently in
the model a job's send has completed exactly when the coordinator has
performed the wait for that index — no completion signal is lost while
that index's turn has not yet come. -/
theorem c6_unbuffered_rendezvous :
    (∀ idx : Nat, (makeDoneChan idx).capacity = 0 ∧ (makeErrorChan idx).capacity = 0) ∧
    ∀ (n : Nat) (outcome : Nat → Send) (tr : List Label) (c : Config),
      Exec outcome (init n) tr c →
      ∀ i, i < n → (c.phases[i]? = some JobPhase.sent ↔ i < c.pos) := by
  refine ⟨fun idx => ⟨rfl, rfl⟩, fun n outcome tr c hexec i hi => ?_⟩
  obtain ⟨⟨-, -, hinv⟩, -, -⟩ := exec_spec hexec (good_init n)
  exact hinv i hi

/-- Witness for C6 at the concrete 2-job run of `wexecA`. -/
theorem c6_unbuffered_rendezvous_witness :
    (makeDoneChan 0).capacity = 0 ∧
    ((Config.mk [JobPhase.sent, JobPhase.sent] 2).phases[0]? = some JobPhase.sent ↔
      0 < (Config.mk [JobPhase.sent, JobPhase.sent] 2).pos) := by
  exact ⟨(c6_unbuffered_rendezvous.1 0).1,
    c6_unbuffered_rendezvous.2 2 (fun _ => Send.done) _ _ wexecA 0 (by omega)⟩

/-- C7: the coordinator's loop terminates only after all N outcomes have
been observed — on any execution that reaches the final loop index, every
launched job's outcome has been collected — and the run exposes nothing
beyond the console report of each outcome, printed as it is collected in
index order. -/
theorem c7_terminates_after_all_observed (n : Nat) (outcome : Nat → Send)
    (tr : List Label) (c : Config)
    (hexec : Exec outcome (init n) tr c) (hterm : c.pos = n) :
    (∀ i, i < n → (i, outcome i) ∈ observations tr) ∧
    console tr = ((List.range n).map (fun i => reportLine (outcome i))).flatten := by
  obtain ⟨-, -, hobs⟩ := exec_spec hexec (good_init n)
  have hobs2 : observations tr = (List.range n).map (fun i => (i, outcome i)) := by
    rw [← hterm]
    simpa [init, List.range_eq_range'] using hobs
  constructor
  · intro i hi
    rw [hobs2]
    exact List.mem_map_of_mem _ (List.mem_range.mpr hi)
  · rw [console_eq, hobs2, List.map_map]
    rfl

/-- Witness for C7 at the concrete 2-job run of `wexecA`. -/
theorem c7_terminates_after_all_observed_witness :
    (0, Send.done) ∈ observations [Label.finish 1, Label.finish 0,
      Label.observe 0 Send.done, Label.observe 1 Send.done] ∧
    console [Label.finish 1, Label.finish 0, Label.observe 0 Send.done,
      Label.observe 1 Send.done] = ["Done ✅", "Done ✅"] := by
  have h := c7_terminates_after_all_observed 2 (fun _ => Send.done) _ _ wexecA rfl
  exact ⟨h.1 0 (by omega), by simpa using h.2⟩

/-- Outcome assignment with a nil error sent on index 0's error channel
and a done signal on index 1's done channel. -/
def nilErrOutcome : Nat → Send := fun i => if i = 0 then Send.err none else Send.done

/-- C10: if the value a job sends on its error channel is nil, the
coordinator prints neither an error line nor a success line for that
index — the nil check guards only the error print — and proceeds to the
next index: with a nil error at index 0 and success at index 1, the
completed run still observes both outcomes but its whole console output
is the single Done line of index 1. -/
theorem c10_nil_error_silent (tr : List Label) (c : Config)
    (hexec : Exec nilErrOutcome (init 2) tr c) (hterm : c.pos = 2) :
    reportLine (Send.err none) = [] ∧
    observations tr = [(0, Send.err none), (1, Send.done)] ∧
    console tr = ["Done ✅"] := by
  obtain ⟨-, -, hobs⟩ := exec_spec hexec (good_init 2)
  have hobs2 : observations tr = [(0, Send.err none), (1, Send.done)] := by
    rw [hterm] at hobs
    simpa [init, List.range', nilErrOutcome] using hobs
  refine ⟨rfl, hobs2, ?_⟩
  rw [console_eq, hobs2]
  rfl

theorem wexecC : Exec nilErrOutcome (init 2)
    [Label.finish 0, Label.finish 1, Label.observe 0 (nilErrOutcome 0),
      Label.observe 1 (nilErrOutcome 1)]
    ⟨[JobPhase.sent, JobPhase.sent], 2⟩ := by
  refine Exec.step (Step.finish _ 0 rfl) ?_
  refine Exec.step (Step.finish _ 1 rfl) ?_
  refine Exec.step (Step.observe _ 0 rfl rfl) ?_
  refine Exec.step (Step.observe _ 1 rfl rfl) ?_
  exact Exec.done _

/-- Witness for C10 at a concrete complete run. -/
theorem c10_nil_error_silent_witness :
    console [Label.finish 0, Label.finish 1, Label.observe 0 (nilErrOutcome 0),
      Label.observe 1 (nilErrOutcome 1)] = ["Done ✅"] := by
  exact (c10_nil_error_silent _ _ wexecC rfl).2.2

/-- C2: every run of a Job's process operation performs exactly one send
on exactly one of its two outcome channels and then terminates: a read,
transform, or write failure sends that error on the error channel (never
anything on the done channel); full success sends once on the done
channel; no run sends on both channels, twice, or not at all. -/
theorem c2_process_exactly_one_send (rr : Except JobError (List (Option Rat)))
    (wr : Except JobError Unit) (p : Rat) :
    (processSends rr wr p).length = 1 ∧
    processSends rr wr p = [processSend rr wr p] ∧
    (∀ e, rr = .error e → processSends rr wr p = [Send.err (some e)]) ∧
    (∀ recs e, rr = .ok recs → transform recs p = .error e →
      processSends rr wr p = [Send.err (some e)]) ∧
    (∀ recs out e, rr = .ok recs → transform recs p = .ok out → wr = .error e →
      processSends rr wr p = [Send.err (some e)]) ∧
    (∀ recs out, rr = .ok recs → transform recs p = .ok out → wr = .ok () →
      processSends rr wr p = [Send.done]) := by
  refine ⟨by rw [processSends_eq]; rfl, processSends_eq rr wr p, ?_, ?_, ?_, ?_⟩
  · intro e he
    subst he
    rfl
  · intro recs e hr ht
    subst hr
    simp [processSends, ht]
  · intro recs out e hr ht hw
    subst hr
    subst hw
    simp [processSends, ht]
  · intro recs out hr ht hw
    subst hr
    subst hw
    simp [processSends, ht]

/-- Witness for C2 on a successful run over one record. -/
theorem c2_process_exactly_one_send_witness :
    processSends (Except.ok [some (1 : Rat)]) (Except.ok ()) 0 = [Send.done] ∧
    (processSends (Except.ok [some (1 : Rat)]) (Except.ok ()) 0).length = 1 := by
  have h := c2_process_exactly_one_send (Except.ok [some (1 : Rat)]) (Except.ok ()) 0
  exact ⟨h.2.2.2.2.2 [some 1] [1 * (1 + 0)] rfl rfl rfl, h.1⟩

/-- Modelled from the spec: calling transform twice on identical inputs.
The pair holds the results of the first and of the second call. -/
def transformTwice (records : List (Option Rat)) (p : Rat) :
    Except JobError (List Rat) × Except JobError (List Rat) :=
  (transform records p, transform records p)

/-- C9: transform is a pure, deterministic function of its record set and
parameter: two calls with identical inputs yield identical results, and
the result depends on nothing but the arguments. -/
theorem c9_transform_pure :
    (∀ (records : List (Option Rat)) (p : Rat),
      (transformTwice records p).1 = (transformTwice records p).2) ∧
    (∀ (r1 r2 : List (Option Rat)) (p1 p2 : Rat), r1 = r2 → p1 = p2 →
      transform r1 p1 = transform r2 p2) := by
  refine ⟨fun records p => rfl, fun r1 r2 p1 p2 h1 h2 => ?_⟩
  rw [h1, h2]

/-- Witness for C9 at a concrete record set and parameter. -/
theorem c9_transform_pure_witness :
    transform [some (2 : Rat)] (1/10) = transform [some (2 : Rat)] (1/10) ∧
    (transformTwice [some (2 : Rat)] (1/10)).1 = (transformTwice [some (2 : Rat)] (1/10)).2 := by
  exact ⟨c9_transform_pure.2 _ _ _ _ rfl rfl, c9_transform_pure.1 [some (2 : Rat)] (1/10)⟩

/-- C4, exhibited on the code: the fan-in program of src/main.go admits a
legal schedule in which `slowGreet`'s send is received first, `slowGreet`
then closes the shared channel, and one of the remaining `greet`
goroutines afterwards performs its send — a send on a closed channel,
the fatal fault the claim says never occurs for any finishing order. -/
theorem c4_fanin_send_on_closed :
    FanExec fanInit [FanLabel.recv 3, FanLabel.closeCh, FanLabel.sendClosed 0]
      ⟨[false, false, false, true], true, true⟩ ∧
    (FanState.mk [false, false, false, true] true true).fcrashed = true := by
  constructor
  · refine FanExec.step (FanStep.recv _ 3 rfl rfl rfl) ?_
    refine FanExec.step (FanStep.closeCh _ rfl rfl rfl) ?_
    refine FanExec.step (FanStep.sendClosed _ 0 rfl rfl rfl) ?_
    exact FanExec.done _
  · rfl

/-- C5, counterexample to the claim as stated: jobs 0 and 1 are distinct
jobs, yet their input locators are equal — every loop iteration passes
the same literal "prices.txt" to `filemanager.New` — so it is false that
no two jobs share a locator. -/
theorem c5_shared_input_counterexample :
    (jobAt 0).inPath = (jobAt 1).inPath ∧
    ¬ (∀ i j, i < jobs.length → j < jobs.length → i ≠ j →
        (jobAt i).inPath ≠ (jobAt j).inPath) := by
  refine ⟨rfl, fun h => ?_⟩
  exact h 0 1 (by decide) (by decide) (by omega) rfl

theorem outPath_job0 : (jobAt 0).outPath = "result_0.json" := by
  show "result_" ++ toString (round ((0:ℚ) * 100)) ++ ".json" = "result_0.json"
  rw [show round ((0:ℚ) * 100) = 0 by norm_num]
  rfl

theorem outPath_job1 : (jobAt 1).outPath = "result_7.json" := by
  show "result_" ++ toString (round ((7/100:ℚ) * 100)) ++ ".json" = "result_7.json"
  rw [show round ((7/100:ℚ) * 100) = 7 by norm_num]
  rfl

theorem outPath_job2 : (jobAt 2).outPath = "result_10.json" := by
  show "result_" ++ toString (round ((1/10:ℚ) * 100)) ++ ".json" = "result_10.json"
  rw [show round ((1/10:ℚ) * 100) = 10 by norm_num]
  rfl

theorem outPath_job3 : (jobAt 3).outPath = "result_15.json" := by
  show "result_" ++ toString (round ((15/100:ℚ) * 100)) ++ ".json" = "result_15.json"
  rw [show round ((15/100:ℚ) * 100) = 15 by norm_num]
  rfl

/-- C5, amended: each job exclusively owns its outcome-channel pair and
its output locator — both pairwise distinct across the four jobs — while
the input locator is one shared read-only path, "prices.txt", for every
job; so the state shared across jobs is the read-only parameter list plus
that shared read-only input file, not nothing. -/
theorem c5_ownership_amended :
    jobs.length = 4 ∧
    (∀ i, i < 4 → ∀ j, j < 4 → i ≠ j →
      chanPair i ≠ chanPair j ∧ (jobAt i).outPath ≠ (jobAt j).outPath) ∧
    (∀ i, i < 4 → (jobAt i).inPath = "prices.txt") := by
  refine ⟨rfl, ?_, fun i _ => rfl⟩
  intro i hi j hj hne
  constructor
  · simp only [chanPair, ne_eq, ChanPair.mk.injEq]
    omega
  · interval_cases i <;> interval_cases j <;>
      simp_all [outPath_job0, outPath_job1, outPath_job2, outPath_job3]

/-- Witness for C5 (amended) at the concrete pair of jobs 0 and 1. -/
theorem c5_ownership_amended_witness :
    chanPair 0 ≠ chanPair 1 ∧ (jobAt 0).outPath ≠ (jobAt 1).outPath ∧
    (jobAt 0).inPath = "prices.txt" := by
  have h := c5_ownership_amended
  exact ⟨(h.2.1 0 (by omega) 1 (by omega) (by omega)).1,
    (h.2.1 0 (by omega) 1 (by omega) (by omega)).2, h.2.2 0 (by omega)⟩

/-- Modelled from the spec: outcome of job `i` in the all-success
concrete scenario — every job reads the same three-item record set and
every write succeeds. -/
def scenarioOutcome (items : List (Option Rat)) : Nat → Send :=
  fun i => processSend (Except.ok items) (Except.ok ()) (taxRates.getD i 0)

/-- Modelled from the spec: outcome of job `i` when exactly index `f`'s
input is unreadable and every other job succeeds. -/
def faultOutcome (items : List (Option Rat)) (f : Nat) : Nat → Send :=
  fun i => processSend
    (if i = f then Except.error (JobError.readError "unreadable") else Except.ok items)
    (Except.ok ()) (taxRates.getD i 0)

/-- C8: with the parameter list [0, 0.07, 0.10, 0.15] and an input of 3
priced line items, the coordinator constructs exactly 4 jobs, each with a
rate-specific output artifact holding the 3 items with price multiplied
by (1+parameter); on all-success a completed run prints exactly 4 Done
lines; and when exactly one index's input is unreadable, the completed
run prints an error line for exactly that index and a Done line for each
other index. -/
theorem c8_concrete_scenario (p1 p2 p3 : Rat) (f : Nat) (_hf : f < 4) :
    jobs.length = 4 ∧
    (∀ i, i < 4 → processWritten (Except.ok [some p1, some p2, some p3]) (Except.ok ())
        (taxRates.getD i 0) =
      some [p1 * (1 + taxRates.getD i 0), p2 * (1 + taxRates.getD i 0),
        p3 * (1 + taxRates.getD i 0)]) ∧
    (List.range 4).map (fun i => (jobAt i).outPath) =
      ["result_0.json", "result_7.json", "result_10.json", "result_15.json"] ∧
    (∀ tr c, Exec (scenarioOutcome [some p1, some p2, some p3]) (init 4) tr c →
      c.pos = 4 → console tr = ["Done ✅", "Done ✅", "Done ✅", "Done ✅"]) ∧
    (∀ tr c, Exec (faultOutcome [some p1, some p2, some p3] f) (init 4) tr c →
      c.pos = 4 → console tr = (List.range 4).map (fun i =>
        if i = f then "🔴 ERROR: " ++ " " ++ "unreadable" else "Done ✅")) := by
  refine ⟨rfl, fun i _ => rfl, ?_, ?_, ?_⟩
  · simp [List.range_succ, outPath_job0, outPath_job1, outPath_job2, outPath_job3]
  · intro tr c hexec hterm
    obtain ⟨-, -, hobs⟩ := exec_spec hexec (good_init 4)
    have hobs2 : observations tr = (List.range 4).map
        (fun i => (i, scenarioOutcome [some p1, some p2, some p3] i)) := by
      rw [hterm] at hobs
      simpa [init, List.range_eq_range'] using hobs
    rw [console_eq, hobs2, List.map_map]
    rfl
  · intro tr c hexec hterm
    obtain ⟨-, -, hobs⟩ := exec_spec hexec (good_init 4)
    have hobs2 : observations tr = (List.range 4).map
        (fun i => (i, faultOutcome [some p1, some p2, some p3] f i)) := by
      rw [hterm] at hobs
      simpa [init, List.range_eq_range'] using hobs
    have hpt : ∀ i, reportLine (faultOutcome [some p1, some p2, some p3] f i) =
        [if i = f then "🔴 ERROR: " ++ " " ++ "unreadable" else "Done ✅"] := by
      intro i
      by_cases hif : i = f
      · simp only [faultOutcome, if_pos hif]
        rfl
      · simp only [faultOutcome, if_neg hif]
        rfl
    rw [console_eq, hobs2, List.map_map]
    have hfun : ((fun p : Nat × Send => reportLine p.2) ∘
        fun i => (i, faultOutcome [some p1, some p2, some p3] f i)) =
        fun i => [if i = f then "🔴 ERROR: " ++ " " ++ "unreadable" else "Done ✅"] :=
      funext (fun i => hpt i)
    rw [hfun]
    exact flatten_map_singleton (List.range 4)
      (fun i => if i = f then "🔴 ERROR: " ++ " " ++ "unreadable" else "Done ✅")

theorem wexecD : Exec (faultOutcome [some 1, some 2, some 3] 2) (init 4)
    [Label.finish 0, Label.finish 1, Label.finish 2, Label.finish 3,
      Label.observe 0 (faultOutcome [some 1, some 2, some 3] 2 0),
      Label.observe 1 (faultOutcome [some 1, some 2, some 3] 2 1),
      Label.observe 2 (faultOutcome [some 1, some 2, some 3] 2 2),
      Label.observe 3 (faultOutcome [some 1, some 2, some 3] 2 3)]
    ⟨[JobPhase.sent, JobPhase.sent, JobPhase.sent, JobPhase.sent], 4⟩ := by
  refine Exec.step (Step.finish _ 0 rfl) ?_
  refine Exec.step (Step.finish _ 1 rfl) ?_
  refine Exec.step (Step.finish _ 2 rfl) ?_
  refine Exec.step (Step.finish _ 3 rfl) ?_
  refine Exec.step (Step.observe _ 0 rfl rfl) ?_
  refine Exec.step (Step.observe _ 1 rfl rfl) ?_
  refine Exec.step (Step.observe _ 2 rfl rfl) ?_
  refine Exec.step (Step.observe _ 3 rfl rfl) ?_
  exact Exec.done _

/-- Witness for C8: the fault at index 2 with items [1, 2, 3], on a
concrete complete run. -/
theorem c8_concrete_scenario_witness :
    console [Label.finish 0, Label.finish 1, Label.finish 2, Label.finish 3,
      Label.observe 0 (faultOutcome [some 1, some 2, some 3] 2 0),
      Label.observe 1 (faultOutcome [some 1, some 2, some 3] 2 1),
      Label.observe 2 (faultOutcome [some 1, some 2, some 3] 2 2),
      Label.observe 3 (faultOutcome [some 1, some 2, some 3] 2 3)] =
      ["Done ✅", "Done ✅", "🔴 ERROR: " ++ " " ++ "unreadable", "Done ✅"] := by
  have h := (c8_concrete_scenario 1 2 3 2 (by omega)).2.2.2.2 _ _ wexecD rfl
  simpa [List.range_succ] using h
